import Mathlib

/- Verification development for apex-scanner (src/app.py).

   Embedding conventions:
   * Python floats are modelled as rationals (ℚ); the numeric constants
     1.8, 1.05 and the percentages are the exact rationals 9/5, 21/20, etc.
   * A raw exchange candle row is a list of cells; a cell is `Option ℚ`
     (`none` models a value whose numeric conversion raises, e.g. a
     non-numeric string; a missing index behaves the same via `getD`).
   * A Python list comprehension whose per-element conversion may raise is
     `mapOpt` (the first failure aborts the whole computation, which the
     surrounding `except` turns into "no value"); a loop with a per-row
     `try/except: continue` is `List.filterMap`.
   * Every embedded function is total; the Python `except` handlers that
     turn failures into `None`/fallthrough become explicit `Option`
     plumbing. -/

/-- Python `round(x, nd)` idealised on ℚ: the nearest multiple of
`10 ^ (-nd)`, ties going to the even multiple. -/
def round_half_even (x : ℚ) : ℤ :=
  if x - ⌊x⌋ < 1/2 then ⌊x⌋
  else if 1/2 < x - ⌊x⌋ then ⌊x⌋ + 1
  else if ⌊x⌋ % 2 = 0 then ⌊x⌋ else ⌊x⌋ + 1

/-- Python `round(x, nd)` (see `round_half_even`). -/
def py_round (nd : ℕ) (x : ℚ) : ℚ := (round_half_even (x * 10 ^ nd) : ℚ) / 10 ^ nd

/-- A Python list comprehension whose element conversions may raise: the
first failure aborts the whole computation. -/
def mapOpt {α β : Type} (f : α → Option β) : List α → Option (List β)
  | [] => some []
  | x :: xs =>
    match f x, mapOpt f xs with
    | some y, some ys => some (y :: ys)
    | _, _ => none

/-- Python `min` over a list of floats.  Every call site in the embedded
code guards non-emptiness (`detect_volume_spike` requires length ≥ 22), so
the `[]` default is unreachable. -/
def listMin : List ℚ → ℚ
  | [] => 0
  | x :: xs => xs.foldl min x

-- ── Volume alert config (src/app.py lines 19-21) ──
def VOLUME_SPIKE_MULTIPLIER : ℚ := 9/5
def ALERT_COOLDOWN_SECONDS : ℚ := 7200

/-- The dict returned by `detect_volume_spike` on success
(`{'ratio': …, 'pct_from_low': …}`). -/
structure Spike where
  ratio : ℚ
  pct_from_low : ℚ
deriving DecidableEq

/-- Python `xs[-1]` (callers guarantee non-emptiness). -/
def last_q (xs : List ℚ) : ℚ := xs.getD (xs.length - 1) 0

/-- Python `xs[-2]` (callers guarantee length ≥ 22). -/
def prev_q (xs : List ℚ) : ℚ := xs.getD (xs.length - 2) 0

/-- `sum(vols[-21:-1]) / 20` — the 20-bar average volume excluding the
current bar.  (`detect_volume_spike` only evaluates it under its
`len(klines) >= 22` guard, where the slice has exactly 20 elements.) -/
def avg_vol_20 (vols : List ℚ) : ℚ := ((vols.drop (vols.length - 21)).take 20).sum / 20

/-- `sum(closes[-11:-1]) / 10` (only used with length ≥ 22). -/
def avg_close_10 (closes : List ℚ) : ℚ :=
  ((closes.drop (closes.length - 11)).take 10).sum / 10

/-- `min(lows[-30:]) if len(lows) >= 30 else min(lows)`. -/
def low_30 (lows : List ℚ) : ℚ :=
  if 30 ≤ lows.length then listMin (lows.drop (lows.length - 30)) else listMin lows

/-- `(curr_price - low_30) / low_30 * 100`. -/
def pct_from_low_of (closes lows : List ℚ) : ℚ :=
  (last_q closes - low_30 lows) / low_30 lows * 100

/-- Body of `detect_volume_spike` after the three column extractions
(rules 1-4, in source order). -/
def spike_of (vols closes lows : List ℚ) : Option Spike :=
  if avg_vol_20 vols ≤ 0 then none
  else if last_q vols / avg_vol_20 vols < VOLUME_SPIKE_MULTIPLIER then none
  else if ¬ (prev_q vols < last_q vols) then none
  else if avg_close_10 closes * (21/20) < last_q closes then none
  else if low_30 lows ≤ 0 then none
  else if 40 < pct_from_low_of closes lows then none
  else some ⟨py_round 2 (last_q vols / avg_vol_20 vols), py_round 1 (pct_from_low_of closes lows)⟩

/-- `detect_volume_spike` (src/app.py lines 61-104).  The `symbol`
parameter of the Python function is unused and omitted.  A row shorter
than 6 raises `IndexError` inside one of the three comprehensions, which
the enclosing `except` turns into `None`: that is the `mapOpt` failure
branch. -/
def detect_volume_spike (klines : List (List ℚ)) : Option Spike :=
  if klines.length < 22 then none
  else
    match mapOpt (fun k => k[5]?) klines, mapOpt (fun k => k[4]?) klines,
          mapOpt (fun k => k[3]?) klines with
    | some vols, some closes, some lows => spike_of vols closes lows
    | _, _, _ => none

/-- Canonical candle `[timestamp, open, high, low, close, volume]`. -/
structure Candle where
  ts : ℚ
  o : ℚ
  h : ℚ
  lo : ℚ
  c : ℚ
  v : ℚ
deriving DecidableEq

/-- The canonical list form of a candle. -/
def Candle.toRow (x : Candle) : List ℚ := [x.ts, x.o, x.h, x.lo, x.c, x.v]

theorem mapOpt_toRow_v (l : List Candle) :
    mapOpt (fun k => k[5]?) (l.map Candle.toRow) = some (l.map Candle.v) := by
  induction l with
  | nil => rfl
  | cons x xs ih => simp [mapOpt, ih]; rfl

theorem mapOpt_toRow_c (l : List Candle) :
    mapOpt (fun k => k[4]?) (l.map Candle.toRow) = some (l.map Candle.c) := by
  induction l with
  | nil => rfl
  | cons x xs ih => simp [mapOpt, ih]; rfl

theorem mapOpt_toRow_lo (l : List Candle) :
    mapOpt (fun k => k[3]?) (l.map Candle.toRow) = some (l.map Candle.lo) := by
  induction l with
  | nil => rfl
  | cons x xs ih => simp [mapOpt, ih]; rfl

/-- Claim C1: for a canonical candle series of length ≥ 22 with positive
trailing-20 average volume and positive 30-bar minimum low, if the current
volume is exactly twice the trailing-20 average, strictly above the
previous bar's volume, the current close is at most 1.05× the mean close
of the 10 preceding bars and at most 40% above the 30-bar minimum low,
then `detect_volume_spike` returns a signal whose ratio field is 2 (the
ratio rounded to 2 decimals) and whose percent-above-low field is the
percentage rounded to 1 decimal. -/
theorem detect_fires_at_double_volume (l : List Candle)
    (hlen : 22 ≤ l.length)
    (havg : 0 < avg_vol_20 (l.map Candle.v))
    (hlow : 0 < low_30 (l.map Candle.lo))
    (hv : last_q (l.map Candle.v) = 2 * avg_vol_20 (l.map Candle.v))
    (hrise : prev_q (l.map Candle.v) < last_q (l.map Candle.v))
    (hc10 : last_q (l.map Candle.c) ≤ (21/20) * avg_close_10 (l.map Candle.c))
    (hc40 : last_q (l.map Candle.c) ≤ (7/5) * low_30 (l.map Candle.lo)) :
    detect_volume_spike (l.map Candle.toRow) =
      some ⟨2, py_round 1 (pct_from_low_of (l.map Candle.c) (l.map Candle.lo))⟩ := by
  have hlen' : ¬ ((l.map Candle.toRow).length < 22) := by
    rw [List.length_map]; omega
  have hratio : last_q (l.map Candle.v) / avg_vol_20 (l.map Candle.v) = 2 := by
    rw [hv, mul_div_assoc, div_self (ne_of_gt havg), mul_one]
  have hpct : pct_from_low_of (l.map Candle.c) (l.map Candle.lo) ≤ 40 := by
    rw [pct_from_low_of, div_mul_eq_mul_div, div_le_iff₀ hlow]
    linarith
  simp only [detect_volume_spike, if_neg hlen', mapOpt_toRow_v, mapOpt_toRow_c, mapOpt_toRow_lo]
  simp only [spike_of, if_neg (not_le.mpr havg), hratio]
  rw [if_neg (by norm_num [VOLUME_SPIKE_MULTIPLIER])]
  rw [if_neg (not_not_intro hrise)]
  rw [if_neg (not_lt.mpr (by linarith))]
  rw [if_neg (not_le.mpr hlow), if_neg (not_lt.mpr hpct)]
  rw [show py_round 2 2 = 2 by norm_num [py_round, round_half_even]]

/-- A 22-bar series: 21 flat bars of volume 10 followed by a bar of
volume 20; all prices flat at 100. -/
def wCandles : List Candle :=
  List.replicate 21 ⟨1, 100, 100, 100, 100, 10⟩ ++ [⟨2, 100, 100, 100, 100, 20⟩]

theorem detect_fires_at_double_volume_witness :
    22 ≤ wCandles.length ∧
    detect_volume_spike (wCandles.map Candle.toRow) =
      some ⟨2, py_round 1 (pct_from_low_of (wCandles.map Candle.c) (wCandles.map Candle.lo))⟩ :=
  ⟨by norm_num [wCandles],
   detect_fires_at_double_volume wCandles
     (by norm_num [wCandles])
     (by norm_num [wCandles, avg_vol_20, List.replicate])
     (by norm_num [wCandles, low_30, listMin, List.replicate])
     (by norm_num [wCandles, avg_vol_20, last_q, List.replicate])
     (by norm_num [wCandles, prev_q, last_q, List.replicate])
     (by norm_num [wCandles, last_q, avg_close_10, List.replicate])
     (by norm_num [wCandles, last_q, low_30, listMin, List.replicate])⟩

/-- Claim C2: for every candle series of length < 22 (including the empty
series), `detect_volume_spike` returns `none`, regardless of contents. -/
theorem detect_absent_below_22 (klines : List (List ℚ)) (h : klines.length < 22) :
    detect_volume_spike klines = none := by
  simp [detect_volume_spike, h]

theorem detect_absent_below_22_witness :
    ([] : List (List ℚ)).length < 22 ∧ detect_volume_spike [] = none :=
  ⟨by norm_num, detect_absent_below_22 [] (by norm_num)⟩

/-- Claim C3: for every canonical candle series of length ≥ 22 whose mean
volume over the 20 bars preceding the current bar is ≤ 0,
`detect_volume_spike` returns `none` (the guard fires before the ratio
division; the embedded function is total, so no arithmetic exception can
escape it). -/
theorem detect_absent_nonpositive_avg (l : List Candle) (hlen : 22 ≤ l.length)
    (havg : avg_vol_20 (l.map Candle.v) ≤ 0) :
    detect_volume_spike (l.map Candle.toRow) = none := by
  have hlen' : ¬ ((l.map Candle.toRow).length < 22) := by
    rw [List.length_map]; omega
  simp only [detect_volume_spike, if_neg hlen', mapOpt_toRow_v, mapOpt_toRow_c, mapOpt_toRow_lo]
  simp only [spike_of, if_pos havg]

/-- A 22-bar series with all volumes zero. -/
def zCandles : List Candle := List.replicate 22 ⟨1, 100, 100, 100, 100, 0⟩

theorem detect_absent_nonpositive_avg_witness :
    22 ≤ zCandles.length ∧ avg_vol_20 (zCandles.map Candle.v) ≤ 0 ∧
    detect_volume_spike (zCandles.map Candle.toRow) = none :=
  ⟨by norm_num [zCandles],
   by norm_num [zCandles, avg_vol_20, List.replicate],
   detect_absent_nonpositive_avg zCandles (by norm_num [zCandles])
     (by norm_num [zCandles, avg_vol_20, List.replicate])⟩

-- ── Cooldown tracker (`_last_alert_time`, src/app.py lines 22, 206-208, 245) ──

/-- The `_last_alert_time` dict: symbol → last alert timestamp. -/
def CooldownMap : Type := String → Option ℚ

/-- `_last_alert_time.get(sym, 0)`. -/
def getLastAlert (m : CooldownMap) (sym : String) : ℚ := (m sym).getD 0

/-- The skip test of `check_coin` (line 208):
`now - _last_alert_time.get(sym, 0) < ALERT_COOLDOWN_SECONDS`. -/
def shouldSkip (m : CooldownMap) (sym : String) (now : ℚ) : Bool :=
  decide (now - getLastAlert m sym < ALERT_COOLDOWN_SECONDS)

/-- `_last_alert_time[sym] = now` (line 245): unconditional overwrite. -/
def recordAlert (m : CooldownMap) (sym : String) (now : ℚ) : CooldownMap :=
  fun s => if s = sym then some now else m s

/-- Claim C7: `shouldSkip` is true exactly when `now` minus the stored
last-alert time (0 when absent) is strictly below the cooldown window,
and after `recordAlert S t0` (an unconditional overwrite) the symbol is
skipped at `t0 + window - 1` and no longer skipped at `t0 + window + 1`. -/
theorem cooldown_contract (m : CooldownMap) (S : String) (t0 now : ℚ) :
    (shouldSkip m S now = true ↔ now - getLastAlert m S < ALERT_COOLDOWN_SECONDS)
    ∧ getLastAlert (recordAlert m S t0) S = t0
    ∧ shouldSkip (recordAlert m S t0) S (t0 + ALERT_COOLDOWN_SECONDS - 1) = true
    ∧ shouldSkip (recordAlert m S t0) S (t0 + ALERT_COOLDOWN_SECONDS + 1) = false := by
  refine ⟨by simp [shouldSkip], ?_, ?_, ?_⟩
  · simp [getLastAlert, recordAlert]
  · simp [shouldSkip, recordAlert, getLastAlert, ALERT_COOLDOWN_SECONDS]
    linarith
  · simp [shouldSkip, recordAlert, getLastAlert, ALERT_COOLDOWN_SECONDS]
    linarith

-- ── Scan scheduler (`run_monitor_scan`, src/app.py lines 200-261) ──

def sourceKuCoin : String := "KuCoin"
def sourceOKX : String := "OKX"

/-- The per-coin result dict built by `check_coin`
(`{'sym','spike','pct_from_low','price','source'}`). -/
structure AlertInfo where
  sym : String
  spike : ℚ
  pct_from_low : ℚ
  price : ℚ
  source : String
deriving DecidableEq

/-- The ordering used by `alerts.sort(key=lambda x: x['spike'], reverse=True)`:
`a` may precede `b` iff `a`'s ratio is at least `b`'s. -/
def ratioGE (a b : AlertInfo) : Prop := b.spike ≤ a.spike

instance : DecidableRel ratioGE := fun a b => inferInstanceAs (Decidable (b.spike ≤ a.spike))
instance : IsTotal AlertInfo ratioGE := ⟨fun a b => le_total b.spike a.spike⟩
instance : IsTrans AlertInfo ratioGE := ⟨fun _ _ _ h1 h2 => le_trans h2 h1⟩

/-- The `alerts` list collected from the worker results
(lines 242-244: every non-`None` result, in order). -/
def scanAlerts (results : List (Option AlertInfo)) : List AlertInfo := results.filterMap id

/-- The cooldown map after the result loop (line 245: every alerted symbol
is stamped with the scan's `now`). -/
def scanCooldown (m : CooldownMap) (now : ℚ) (results : List (Option AlertInfo)) : CooldownMap :=
  (scanAlerts results).foldl (fun mm a => recordAlert mm a.sym now) m

/-- The batch handed to the notifier (lines 247-254): `None` when no alert
fired, otherwise the alerts sorted descending by ratio, capped at 10. -/
def scanBatch (results : List (Option AlertInfo)) : Option (List AlertInfo) :=
  if (scanAlerts results).isEmpty then none
  else some ((List.insertionSort ratioGE (scanAlerts results)).take 10)

/-- `run_monitor_scan` after the worker pool has produced `results`: the
new `_last_alert_time` map, plus the notifier's return value when a batch
was sent (its value is ignored by the caller).  The message formatting of
lines 250-257 is abstracted into the `notify` collaborator, which receives
the sorted, capped batch. -/
def run_monitor_scan (notify : List AlertInfo → Bool) (m : CooldownMap) (now : ℚ)
    (results : List (Option AlertInfo)) : CooldownMap × Option Bool :=
  (scanCooldown m now results, (scanBatch results).map notify)

theorem foldl_record_not_mem (alerts : List AlertInfo) (m : CooldownMap) (now : ℚ)
    (s : String) (h : s ∉ alerts.map AlertInfo.sym) :
    (alerts.foldl (fun mm a => recordAlert mm a.sym now) m) s = m s := by
  induction alerts generalizing m with
  | nil => rfl
  | cons a rest ih =>
    simp only [List.map_cons, List.mem_cons] at h
    push_neg at h
    rw [List.foldl_cons, ih _ h.2]
    simp [recordAlert, h.1]

theorem foldl_record_mem (alerts : List AlertInfo) (m : CooldownMap) (now : ℚ)
    (s : String) (h : s ∈ alerts.map AlertInfo.sym) :
    (alerts.foldl (fun mm a => recordAlert mm a.sym now) m) s = some now := by
  induction alerts generalizing m with
  | nil => simp at h
  | cons a rest ih =>
    simp only [List.map_cons, List.mem_cons] at h
    by_cases hs : s ∈ rest.map AlertInfo.sym
    · rw [List.foldl_cons]
      exact ih _ hs
    · have hsa : s = a.sym := h.resolve_right hs
      rw [List.foldl_cons, foldl_record_not_mem rest _ now s hs]
      simp [recordAlert, hsa]

/-- Claim C4: a last-alert timestamp is written only in conjunction with a
batch being handed to the notifier (if nothing is handed over, the map is
unchanged), and a symbol with no positive signal keeps its previous
entry. -/
theorem cooldown_updated_only_with_batch (notify : List AlertInfo → Bool) (m : CooldownMap)
    (now : ℚ) (results : List (Option AlertInfo)) :
    ((run_monitor_scan notify m now results).2 = none →
      (run_monitor_scan notify m now results).1 = m)
    ∧ ∀ s, s ∉ (scanAlerts results).map AlertInfo.sym →
        (run_monitor_scan notify m now results).1 s = m s := by
  constructor
  · intro h
    simp only [run_monitor_scan, Option.map_eq_none'] at h
    have hne : (scanAlerts results).isEmpty := by
      by_contra hne
      simp [scanBatch, hne] at h
    have halerts : scanAlerts results = [] := by
      simpa using hne
    simp [run_monitor_scan, scanCooldown, halerts]
  · intro s hs
    exact foldl_record_not_mem _ m now s hs

def emptyCooldown : CooldownMap := fun _ => none

def symX : String := "XCOIN"
def symY : String := "YCOIN"
def symT : String := "TCOIN"
def symL : String := "LCOIN"

/-- A minimal alert result with a given symbol and ratio. -/
def aSig (s : String) (r : ℚ) : AlertInfo := ⟨s, r, 0, 100, sourceKuCoin⟩

def exResultsC4 : List (Option AlertInfo) := [none, some (aSig symX (19/10))]

theorem cooldown_updated_only_with_batch_witness :
    symY ∉ (scanAlerts exResultsC4).map AlertInfo.sym ∧
    (run_monitor_scan (fun _ => true) emptyCooldown 5 exResultsC4).1 symY = emptyCooldown symY :=
  ⟨by simp [scanAlerts, exResultsC4, aSig, symX, symY],
   (cooldown_updated_only_with_batch (fun _ => true) emptyCooldown 5 exResultsC4).2 symY
     (by simp [scanAlerts, exResultsC4, aSig, symX, symY])⟩

theorem pairwise_take_drop {α : Type} (r : α → α → Prop) (l : List α) (k : ℕ)
    (h : l.Pairwise r) : ∀ x ∈ l.take k, ∀ y ∈ l.drop k, r x y := by
  rw [← List.take_append_drop k l] at h
  exact fun x hx y hy => (List.pairwise_append.mp h).2.2 x hx y hy

/-- Claim C8: whenever a scan hands a batch to the notifier, the batch is
sorted descending by ratio, holds at most 10 entries, all of them fired
alerts, and every entry's ratio is at least that of every alert left out
of the cap. -/
theorem batch_sorted_and_capped (results : List (Option AlertInfo)) (batch : List AlertInfo)
    (h : scanBatch results = some batch) :
    batch.length ≤ 10 ∧ List.Sorted ratioGE batch
    ∧ (∀ x ∈ batch, x ∈ scanAlerts results)
    ∧ ∀ x ∈ batch, ∀ y ∈ (List.insertionSort ratioGE (scanAlerts results)).drop 10,
        y.spike ≤ x.spike := by
  have hb : batch = (List.insertionSort ratioGE (scanAlerts results)).take 10 := by
    by_cases he : (scanAlerts results).isEmpty
    · simp [scanBatch, he] at h
    · simp [scanBatch, he] at h
      exact h.symm
  have hsorted : List.Sorted ratioGE (List.insertionSort ratioGE (scanAlerts results)) :=
    List.sorted_insertionSort ratioGE (scanAlerts results)
  subst hb
  refine ⟨?_, ?_, ?_, ?_⟩
  · rw [List.length_take]
    exact min_le_left _ _
  · exact List.Pairwise.sublist (List.take_sublist _ _) hsorted
  · intro x hx
    have : x ∈ List.insertionSort ratioGE (scanAlerts results) :=
      List.mem_of_mem_take hx
    exact (List.perm_insertionSort ratioGE (scanAlerts results)).mem_iff.mp this
  · exact fun x hx y hy => pairwise_take_drop ratioGE _ 10 hsorted x hx y hy

def exResultsC8 : List (Option AlertInfo) :=
  [some (aSig symX (19/10)), none, some (aSig symY (16/5)), some (aSig symT (21/10)), none]

theorem scanBatch_exC8_eval :
    scanBatch exResultsC8 = some [aSig symY (16/5), aSig symT (21/10), aSig symX (19/10)] := by
  have h1 : scanAlerts exResultsC8 = [aSig symX (19/10), aSig symY (16/5), aSig symT (21/10)] :=
    rfl
  have h2 : List.insertionSort ratioGE [aSig symX (19/10), aSig symY (16/5), aSig symT (21/10)]
      = [aSig symY (16/5), aSig symT (21/10), aSig symX (19/10)] := by
    norm_num [List.insertionSort, List.orderedInsert, ratioGE, aSig]
  rw [scanBatch, h1, h2]
  simp

theorem batch_sorted_and_capped_witness :
    scanBatch exResultsC8 = some [aSig symY (16/5), aSig symT (21/10), aSig symX (19/10)] ∧
    ([aSig symY (16/5), aSig symT (21/10), aSig symX (19/10)].length ≤ 10 ∧
      List.Sorted ratioGE [aSig symY (16/5), aSig symT (21/10), aSig symX (19/10)] ∧
      (∀ x ∈ [aSig symY (16/5), aSig symT (21/10), aSig symX (19/10)],
        x ∈ scanAlerts exResultsC8) ∧
      ∀ x ∈ [aSig symY (16/5), aSig symT (21/10), aSig symX (19/10)],
        ∀ y ∈ (List.insertionSort ratioGE (scanAlerts exResultsC8)).drop 10,
          y.spike ≤ x.spike) :=
  ⟨scanBatch_exC8_eval, batch_sorted_and_capped exResultsC8 _ scanBatch_exC8_eval⟩

/-- Claim C10: the cooldown timestamp is recorded for every symbol whose
detection fired — including ones ranked below the top-10 cap — and the
resulting cooldown map does not depend on the notifier (the same map
results whether delivery succeeds, fails, or Telegram is unconfigured:
the code ignores `send_telegram`'s boolean). -/
theorem cooldown_recorded_for_all_fired (n1 n2 : List AlertInfo → Bool) (m : CooldownMap)
    (now : ℚ) (results : List (Option AlertInfo)) :
    (∀ a ∈ scanAlerts results, (run_monitor_scan n1 m now results).1 a.sym = some now)
    ∧ (run_monitor_scan n1 m now results).1 = (run_monitor_scan n2 m now results).1 := by
  constructor
  · intro a ha
    exact foldl_record_mem _ m now a.sym (List.mem_map_of_mem _ ha)
  · rfl

/-- Eleven positive results: ten with ratio 3 and one (the last, `symL`)
with ratio 19/10, which the top-10 cap excludes from the sent batch. -/
def exResultsC10 : List (Option AlertInfo) :=
  [some (aSig symX 3), some (aSig symY 3), some (aSig symT 3), some (⟨"A1", 3, 0, 100, sourceKuCoin⟩ : AlertInfo),
   some (⟨"A2", 3, 0, 100, sourceKuCoin⟩ : AlertInfo), some (⟨"A3", 3, 0, 100, sourceKuCoin⟩ : AlertInfo),
   some (⟨"A4", 3, 0, 100, sourceKuCoin⟩ : AlertInfo), some (⟨"A5", 3, 0, 100, sourceKuCoin⟩ : AlertInfo),
   some (⟨"A6", 3, 0, 100, sourceKuCoin⟩ : AlertInfo), some (⟨"A7", 3, 0, 100, sourceKuCoin⟩ : AlertInfo),
   some (aSig symL (19/10))]

theorem cooldown_recorded_for_all_fired_witness :
    aSig symL (19/10) ∈ scanAlerts exResultsC10 ∧
    (run_monitor_scan (fun _ => false) emptyCooldown 7 exResultsC10).1 (aSig symL (19/10)).sym
      = some 7 :=
  ⟨by simp [scanAlerts, exResultsC10],
   (cooldown_recorded_for_all_fired (fun _ => false) (fun _ => true) emptyCooldown 7
       exResultsC10).1 (aSig symL (19/10)) (by simp [scanAlerts, exResultsC10])⟩

-- ── Source adapters and fallback (src/app.py lines 206-237, 571-644) ──

/-- A raw provider candle row: a list of cells.  A cell is `some q` for a
value whose numeric conversion succeeds with value `q`, `none` for one
whose conversion raises (a missing index behaves identically). -/
abbrev RawRow := List (Option ℚ)

/-- Outcome of one adapter's HTTP request: an exception before/at parsing
(timeout, connection error, bad JSON), a non-2xx response, or a parsed
payload. -/
inductive Resp (α : Type) where
  | err : Resp α
  | httpErr : Resp α
  | ok (data : List α) : Resp α

/-- `c[i]` followed by a numeric conversion; fails when the index is
missing or the cell is non-numeric. -/
def cell (c : RawRow) (i : ℕ) : Option ℚ := c.getD i none

/-- KuCoin row conversion
`[int(c[0])*1000, float(c[1]), float(c[3]), float(c[4]), float(c[2]), float(c[5])]`
(KuCoin rows are `[time, open, close, high, low, vol, …]`; `int` of an
integral numeric string is its value). -/
def conv_kucoin_row (c : RawRow) : Option (List ℚ) := do
  let t ← cell c 0
  let o ← cell c 1
  let cl ← cell c 2
  let h ← cell c 3
  let lo ← cell c 4
  let v ← cell c 5
  pure [t * 1000, o, h, lo, cl, v]

/-- OKX row conversion
`[int(c[0]), float(c[1]), float(c[2]), float(c[3]), float(c[4]), float(c[5])]`. -/
def conv_okx_row (c : RawRow) : Option (List ℚ) := do
  let t ← cell c 0
  let o ← cell c 1
  let h ← cell c 2
  let lo ← cell c 3
  let cl ← cell c 4
  let v ← cell c 5
  pure [t, o, h, lo, cl, v]

/-- Binance row conversion `[c[0], float(c[1]), …, float(c[5])]`.  (The
source keeps `c[0]` unconverted; on the wire it is always a number, which
the cell model states as the cell being numeric.) -/
def conv_binance_row (c : RawRow) : Option (List ℚ) := do
  let t ← cell c 0
  let o ← cell c 1
  let h ← cell c 2
  let lo ← cell c 3
  let cl ← cell c 4
  let v ← cell c 5
  pure [t, o, h, lo, cl, v]

/-- The OKX fallback part of `check_coin` (lines 224-234).  An exception
anywhere in it is caught by the single `except` of `check_coin` and also
yields `None`, so failing conversion and falling off the end coincide. -/
def check_coin_okx (sym : String) (okx : Resp RawRow) : Option AlertInfo :=
  match okx with
  | .ok data2 =>
    if 22 ≤ data2.length then
      match mapOpt conv_okx_row data2.reverse with
      | some klines2 =>
        match detect_volume_spike klines2 with
        | some spike =>
          some ⟨sym, spike.ratio, spike.pct_from_low,
            (klines2.getD (klines2.length - 1) []).getD 4 0, sourceOKX⟩
        | none => none
      | none => none
    else none
  | _ => none

/-- `check_coin` (src/app.py lines 206-237).  One `try` wraps BOTH
adapters: a request exception (`Resp.err`) or a row conversion failure in
the KuCoin branch jumps to the final `except` and returns `None` without
attempting OKX; only a non-2xx status, a short payload, or a no-spike
outcome falls through to the OKX branch. -/
def check_coin (lastAlert : CooldownMap) (now : ℚ) (sym : String)
    (kc okx : Resp RawRow) : Option AlertInfo :=
  if shouldSkip lastAlert sym now then none
  else
    match kc with
    | .err => none
    | .httpErr => check_coin_okx sym okx
    | .ok data =>
      if 22 ≤ data.length then
        match mapOpt conv_kucoin_row data.reverse with
        | some klines =>
          match detect_volume_spike klines with
          | some spike =>
            some ⟨sym, spike.ratio, spike.pct_from_low,
              (klines.getD (klines.length - 1) []).getD 4 0, sourceKuCoin⟩
          | none => check_coin_okx sym okx
        | none => none
      else check_coin_okx sym okx

def sourceKucoinLow : String := "kucoin"
def sourceOkxLow : String := "okx"
def sourceBinanceSpot : String := "binance_spot"
def sourceBinanceFut : String := "binance_futures"

/-- A fetched series plus the identity of the source that produced it
(`{'klines': …, 'source': …}`; the constant `'type': 'crypto'` field is
omitted). -/
structure FetchResult where
  klines : List (List ℚ)
  source : String
deriving DecidableEq

/-- The KuCoin branch of `fetch_one_crypto` (lines 572-593): rows are
converted under a per-row `try/except: continue` (`filterMap`), and the
series is used only if at least 20 rows survive. -/
def kucoin_step (r : Resp RawRow) : Option FetchResult :=
  match r with
  | .ok candles =>
    if candles ≠ [] ∧ 20 ≤ candles.length then
      let klines := candles.reverse.filterMap conv_kucoin_row
      if 20 ≤ klines.length then some ⟨klines, sourceKucoinLow⟩ else none
    else none
  | _ => none

/-- The OKX branch of `fetch_one_crypto` (lines 595-613). -/
def okx_step (r : Resp RawRow) : Option FetchResult :=
  match r with
  | .ok candles2 =>
    if candles2 ≠ [] ∧ 20 ≤ candles2.length then
      let klines := candles2.reverse.filterMap conv_okx_row
      if 20 ≤ klines.length then some ⟨klines, sourceOkxLow⟩ else none
    else none
  | _ => none

/-- A Binance branch of `fetch_one_crypto` (lines 615-641): rows are
converted in a comprehension with no per-row `try`, so one bad row aborts
the branch (the branch's `except` then falls through to the next
adapter). -/
def binance_step (src : String) (r : Resp RawRow) : Option FetchResult :=
  match r with
  | .ok data =>
    if 20 ≤ data.length then
      match mapOpt conv_binance_row data with
      | some klines => some ⟨klines, src⟩
      | none => none
    else none
  | _ => none

/-- The tail of the adapter chain after OKX. -/
def fetch_from_binance (bs bf : Resp RawRow) : Option FetchResult :=
  match binance_step sourceBinanceSpot bs with
  | some res => some res
  | none => binance_step sourceBinanceFut bf

/-- The tail of the adapter chain after KuCoin. -/
def fetch_from_okx (okx bs bf : Resp RawRow) : Option FetchResult :=
  match okx_step okx with
  | some res => some res
  | none => fetch_from_binance bs bf

/-- `fetch_one_crypto` (src/app.py lines 571-644): KuCoin, then OKX, then
Binance spot, then Binance futures; each branch's failure is caught inside
the branch and the next one is tried; `none` models the final
`return sym, None`. -/
def fetch_one_crypto (kc okx bs bf : Resp RawRow) : Option FetchResult :=
  match kucoin_step kc with
  | some res => some res
  | none => fetch_from_okx okx bs bf

/-- Claim C6: any adapter payload shorter than 20 candles is rejected by
every step of the chain, and when the first adapter's payload is shorter
than 20 while OKX yields ≥ 20 convertible candles, `fetch_one_crypto`
returns OKX's converted series tagged "okx", with the earlier failure
invisible in the result. -/
theorem fallback_skips_short_series (rows rows2 : List RawRow) (bs bf : Resp RawRow)
    (hshort : rows.length < 20)
    (h2len : 20 ≤ rows2.length)
    (h2conv : 20 ≤ (rows2.reverse.filterMap conv_okx_row).length) :
    (∀ r : List RawRow, r.length < 20 →
      kucoin_step (.ok r) = none ∧ okx_step (.ok r) = none ∧
      binance_step sourceBinanceSpot (.ok r) = none ∧
      binance_step sourceBinanceFut (.ok r) = none)
    ∧ fetch_one_crypto (.ok rows) (.ok rows2) bs bf
        = some ⟨rows2.reverse.filterMap conv_okx_row, sourceOkxLow⟩ := by
  have hstep : ∀ r : List RawRow, r.length < 20 →
      kucoin_step (.ok r) = none ∧ okx_step (.ok r) = none ∧
      binance_step sourceBinanceSpot (.ok r) = none ∧
      binance_step sourceBinanceFut (.ok r) = none := by
    intro r hr
    have hc : ¬ (r ≠ [] ∧ 20 ≤ r.length) := fun h => absurd h.2 (by omega)
    have hb : ¬ (20 ≤ r.length) := by omega
    refine ⟨?_, ?_, ?_, ?_⟩ <;> simp [kucoin_step, okx_step, binance_step, hc, hb]
  refine ⟨hstep, ?_⟩
  have hk : kucoin_step (.ok rows) = none := (hstep rows hshort).1
  have hne : rows2 ≠ [] := by
    intro h
    rw [h] at h2len
    simp at h2len
  simp only [fetch_one_crypto, hk, fetch_from_okx, okx_step,
    if_pos (And.intro hne h2len), if_pos h2conv]

/-- An OKX-format row with flat prices and the given volume. -/
def okxRow (v : ℚ) : RawRow := [some 1, some 100, some 100, some 100, some 100, some v]

def c6Rows : List RawRow := List.replicate 22 (okxRow 10)

theorem filterMap_replicate_some {α β : Type} (f : α → Option β) (a : α) (b : β)
    (h : f a = some b) (n : ℕ) :
    List.filterMap f (List.replicate n a) = List.replicate n b := by
  induction n with
  | zero => rfl
  | succ n ih => simp [List.replicate_succ, List.filterMap_cons, h, ih]

theorem c6Rows_conv_length : 20 ≤ (c6Rows.reverse.filterMap conv_okx_row).length := by
  rw [c6Rows, List.reverse_replicate,
    filterMap_replicate_some conv_okx_row (okxRow 10)
      ([1, 100, 100, 100, 100, 10] : List ℚ) rfl]
  simp

theorem fallback_skips_short_series_witness :
    ([] : List RawRow).length < 20 ∧ 20 ≤ c6Rows.length ∧
    20 ≤ (c6Rows.reverse.filterMap conv_okx_row).length ∧
    fetch_one_crypto (.ok []) (.ok c6Rows) .err .err
      = some ⟨c6Rows.reverse.filterMap conv_okx_row, sourceOkxLow⟩ :=
  ⟨by norm_num, by norm_num [c6Rows], c6Rows_conv_length,
   (fallback_skips_short_series [] c6Rows .err .err (by norm_num) (by norm_num [c6Rows])
     c6Rows_conv_length).2⟩

-- ── C5 material: concrete adapter payloads and evaluation lemmas ──

def symA : String := "ACOIN"

/-- A KuCoin-format raw row (`[time, open, close, high, low, vol]`) with
flat prices and the given volume. -/
def kcRow (v : ℚ) : RawRow := [some 1, some 100, some 100, some 100, some 100, some v]

/-- A row whose first cell fails numeric conversion. -/
def badRow : RawRow := [none, some 1, some 1, some 1, some 1, some 1]

/-- 22 KuCoin rows of which one is malformed. -/
def kcBadData : List RawRow := badRow :: List.replicate 21 (kcRow 10)

/-- 22 OKX rows, newest first, whose newest bar doubles the volume. -/
def okxGoodData : List RawRow := okxRow 20 :: List.replicate 21 (okxRow 10)

def flatK : List ℚ := [1, 100, 100, 100, 100, 10]
def spikeK : List ℚ := [1, 100, 100, 100, 100, 20]

/-- The chronological series obtained from `okxGoodData`. -/
def klinesGood : List (List ℚ) := List.replicate 21 flatK ++ [spikeK]

theorem mapOpt_concat_none {α β : Type} (f : α → Option β) (xs : List α) (x : α)
    (h : f x = none) : mapOpt f (xs ++ [x]) = none := by
  induction xs with
  | nil => simp [mapOpt, h]
  | cons a l ih =>
    rw [List.cons_append]
    simp only [mapOpt, ih]
    cases f a <;> rfl

theorem mapOpt_replicate_some {α β : Type} (f : α → Option β) (a : α) (b : β)
    (h : f a = some b) (n : ℕ) :
    mapOpt f (List.replicate n a) = some (List.replicate n b) := by
  induction n with
  | zero => rfl
  | succ n ih => simp [List.replicate_succ, mapOpt, h, ih]

theorem mapOpt_append_some {α β : Type} (f : α → Option β) (xs ys : List α) (as bs : List β)
    (hx : mapOpt f xs = some as) (hy : mapOpt f ys = some bs) :
    mapOpt f (xs ++ ys) = some (as ++ bs) := by
  induction xs generalizing as with
  | nil =>
    simp only [mapOpt] at hx
    injection hx with hx
    subst hx
    simpa using hy
  | cons x l ih =>
    rw [List.cons_append]
    simp only [mapOpt] at hx ⊢
    cases hfx : f x with
    | none => simp [hfx] at hx
    | some y =>
      simp only [hfx] at hx ⊢
      cases hml : mapOpt f l with
      | none => simp [hml] at hx
      | some zs =>
        simp only [hml] at hx
        injection hx with hx
        subst hx
        rw [ih zs hml]
        rfl

theorem kcBad_conv_none : mapOpt conv_kucoin_row kcBadData.reverse = none := by
  rw [kcBadData, List.reverse_cons, List.reverse_replicate]
  exact mapOpt_concat_none _ _ _ rfl

theorem okxGood_conv : mapOpt conv_okx_row okxGoodData.reverse = some klinesGood := by
  rw [okxGoodData, List.reverse_cons, List.reverse_replicate, klinesGood]
  exact mapOpt_append_some _ _ _ _ _ (mapOpt_replicate_some _ _ flatK rfl 21) rfl

theorem detect_klinesGood : detect_volume_spike klinesGood = some ⟨2, 0⟩ := by
  have h5 : mapOpt (fun k => k[5]?) klinesGood = some (List.replicate 21 (10:ℚ) ++ [20]) := by
    rw [klinesGood]
    exact mapOpt_append_some _ _ _ _ _ (mapOpt_replicate_some _ _ _ rfl 21) rfl
  have h4 : mapOpt (fun k => k[4]?) klinesGood = some (List.replicate 21 (100:ℚ) ++ [100]) := by
    rw [klinesGood]
    exact mapOpt_append_some _ _ _ _ _ (mapOpt_replicate_some _ _ _ rfl 21) rfl
  have h3 : mapOpt (fun k => k[3]?) klinesGood = some (List.replicate 21 (100:ℚ) ++ [100]) := by
    rw [klinesGood]
    exact mapOpt_append_some _ _ _ _ _ (mapOpt_replicate_some _ _ _ rfl 21) rfl
  have hlen : ¬ (klinesGood.length < 22) := by
    simp [klinesGood]
  rw [detect_volume_spike, if_neg hlen]
  simp only [h5, h4, h3]
  norm_num [spike_of, avg_vol_20, avg_close_10, low_30, listMin, last_q, prev_q,
    pct_from_low_of, py_round, round_half_even, VOLUME_SPIKE_MULTIPLIER, List.replicate]

theorem gate_false (m : CooldownMap) (s : String) (hm : m s = none) :
    shouldSkip m s 7200 = false := by
  simp [shouldSkip, getLastAlert, hm, ALERT_COOLDOWN_SECONDS]

theorem getD_concat_length {α : Type} (xs : List α) (x : α) (d : α) :
    (xs ++ [x]).getD ((xs ++ [x]).length - 1) d = x := by
  induction xs with
  | nil => rfl
  | cons a l ih =>
    have hlen : (a :: (l ++ [x])).length - 1 = (l ++ [x]).length - 1 + 1 := by
      simp [List.length_append]
    rw [List.cons_append, hlen, List.getD_cons_succ, ih]

theorem check_coin_okx_good :
    check_coin_okx symA (.ok okxGoodData) = some ⟨symA, 2, 0, 100, sourceOKX⟩ := by
  have hlen : 22 ≤ okxGoodData.length := by simp [okxGoodData]
  simp only [check_coin_okx, if_pos hlen, okxGood_conv, detect_klinesGood]
  rw [klinesGood, getD_concat_length]
  rfl

/-- Claim C5 counterexample: in `check_coin` the single `try` wraps both
adapters, so when KuCoin's payload contains a row that fails numeric
conversion the function returns `None` WITHOUT attempting OKX — although
the very same OKX payload, reached when KuCoin merely reports a non-2xx
status, produces a spike signal.  This refutes "for every symbol where the
first adapter yields a malformed payload, the next adapter is still
attempted". -/
theorem check_coin_skips_okx_on_malformed_kucoin :
    check_coin emptyCooldown 7200 symA (.ok kcBadData) (.ok okxGoodData) = none
    ∧ check_coin emptyCooldown 7200 symA .httpErr (.ok okxGoodData)
        = some ⟨symA, 2, 0, 100, sourceOKX⟩ := by
  have hgate : shouldSkip emptyCooldown symA 7200 = false := gate_false _ _ rfl
  have hlen : 22 ≤ kcBadData.length := by simp [kcBadData]
  constructor
  · simp only [check_coin, hgate, Bool.false_eq_true, if_false, if_pos hlen, kcBad_conv_none]
  · simp only [check_coin, hgate, Bool.false_eq_true, if_false]
    exact check_coin_okx_good

/-- Claim C5 (amended): in `fetch_one_crypto` each adapter's failure is
contained in its own `try`, so whenever the KuCoin step yields nothing —
in particular whenever fewer than 20 of its rows convert — the rest of the
chain (OKX, then Binance) is evaluated unchanged; in `check_coin`,
however, a request exception or a row failing numeric conversion in the
KuCoin branch ends the whole attempt with no signal (OKX is not
consulted), though in both functions nothing propagates to the caller. -/
theorem soft_failure_fallback_amended (kc okx bs bf : Resp RawRow) (data : List RawRow)
    (lastAlert : CooldownMap) (now : ℚ) (sym : String)
    (hkc : kucoin_step kc = none)
    (hlen : 22 ≤ data.length)
    (hconv : mapOpt conv_kucoin_row data.reverse = none)
    (hskip : shouldSkip lastAlert sym now = false) :
    fetch_one_crypto kc okx bs bf = fetch_from_okx okx bs bf
    ∧ (∀ rows : List RawRow, (rows.reverse.filterMap conv_kucoin_row).length < 20 →
        kucoin_step (.ok rows) = none)
    ∧ check_coin lastAlert now sym (.ok data) okx = none := by
  refine ⟨?_, ?_, ?_⟩
  · simp [fetch_one_crypto, hkc]
  · intro rows hrows
    simp only [kucoin_step]
    split
    · rw [if_neg (by omega)]
    · rfl
  · simp only [check_coin, hskip, Bool.false_eq_true, if_false, if_pos hlen, hconv]

theorem soft_failure_fallback_amended_witness :
    kucoin_step (Resp.err) = none ∧ 22 ≤ kcBadData.length ∧
    mapOpt conv_kucoin_row kcBadData.reverse = none ∧
    shouldSkip emptyCooldown symA 7200 = false ∧
    (fetch_one_crypto .err (.ok okxGoodData) .err .err
        = fetch_from_okx (.ok okxGoodData) .err .err
      ∧ (∀ rows : List RawRow, (rows.reverse.filterMap conv_kucoin_row).length < 20 →
          kucoin_step (.ok rows) = none)
      ∧ check_coin emptyCooldown 7200 symA (.ok kcBadData) (.ok okxGoodData) = none) :=
  ⟨rfl, by simp [kcBadData], kcBad_conv_none, gate_false _ _ rfl,
   soft_failure_fallback_amended .err (.ok okxGoodData) .err .err kcBadData emptyCooldown
     7200 symA rfl (by simp [kcBadData]) kcBad_conv_none (gate_false _ _ rfl)⟩

-- ── Universe manager (`fetch_monitor_coins`, src/app.py lines 130-197) ──

/-- The stablecoin / wrapped-asset exclusion set (line 133). -/
def EXCLUDE : List String :=
  ["USDT", "USDC", "BUSD", "TUSD", "USDD", "USDP", "FDUSD", "DAI", "FRAX",
   "LUSD", "PYUSD", "GUSD", "SUSD", "USDB", "USDX", "EURC", "WBTC", "WETH",
   "WBNB", "STETH", "WSTETH", "CBETH", "RETH", "BETH", "BTCB", "HBTC"]

/-- One listing record, reduced to what the filter reads: the base-asset
field (`none` when the key is missing, in which case the direct indexing
`s['baseAsset']` / `s['baseCurrency']` / `s['baseCcy']` raises `KeyError`)
and whether the quote/status conditions — read with the non-raising
`.get` — hold. -/
abbrev ListingEntry := Option String × Bool

/-- A Binance `exchangeInfo` symbol record (lines 144-147). -/
structure BinanceSymbol where
  baseAsset : Option String
  quoteAsset : Option String
  status : Option String
  isSpotTradingAllowed : Bool

/-- A KuCoin `symbols` record (lines 165-166). -/
structure KucoinSymbol where
  baseCurrency : Option String
  quoteCurrency : Option String
  enableTrading : Bool

/-- An OKX `instruments` record (lines 184-185). -/
structure OkxInstrument where
  baseCcy : Option String
  quoteCcy : Option String
  state : Option String

def binanceEntry (s : BinanceSymbol) : ListingEntry :=
  (s.baseAsset,
   s.quoteAsset == some ("USDT" : String) && s.status == some ("TRADING" : String)
     && s.isSpotTradingAllowed)

def kucoinEntry (s : KucoinSymbol) : ListingEntry :=
  (s.baseCurrency, s.quoteCurrency == some ("USDT" : String) && s.enableTrading)

def okxEntry (s : OkxInstrument) : ListingEntry :=
  (s.baseCcy, s.quoteCcy == some ("USDT" : String) && s.state == some ("live" : String))

/-- The per-exchange collection loop shared by the three branches of
`fetch_monitor_coins`: `seen` is created afresh per branch while `coins`
is the accumulator shared across branches; a missing base field raises
`KeyError`, which aborts the loop keeping the coins appended so far
(flag `false` = the branch's trailing `if coins:` check is skipped). -/
def collectCoins : List ListingEntry → List String → List String → List String × Bool
  | [], _, coins => (coins, true)
  | (b, true) :: rest, seen, coins =>
    (match b with
     | none => (coins, false)
     | some base =>
       if base ∉ seen ∧ base ∉ EXCLUDE then collectCoins rest (base :: seen) (coins ++ [base])
       else collectCoins rest seen coins)
  | (_, false) :: rest, seen, coins => collectCoins rest seen coins

/-- One `try` branch of `fetch_monitor_coins`: on a parsed payload, run the
loop from a fresh `seen` over the shared accumulator `acc`; the branch
replaces the universe (flag `true`) only when its loop completed AND the
accumulated list is non-empty.  A request failure or non-2xx leaves the
accumulator untouched. -/
def branchStep {α : Type} (entry : α → ListingEntry) (resp : Resp α)
    (acc : List String) : List String × Bool :=
  match resp with
  | .ok data =>
    let s := collectCoins (data.map entry) [] acc
    (s.1, s.2 && !s.1.isEmpty)
  | _ => (acc, false)

/-- `fetch_monitor_coins` (src/app.py lines 130-197): Binance, then
KuCoin, then OKX; the first branch that completes with a non-empty
accumulated list replaces `MONITOR_COINS`, otherwise the previous universe
is kept. -/
def fetch_monitor_coins (prev : List String) (bin : Resp BinanceSymbol)
    (kc : Resp KucoinSymbol) (okx : Resp OkxInstrument) : List String :=
  let s1 := branchStep binanceEntry bin []
  if s1.2 then s1.1
  else
    let s2 := branchStep kucoinEntry kc s1.1
    if s2.2 then s2.1
    else
      let s3 := branchStep okxEntry okx s2.1
      if s3.2 then s3.1 else prev

/-- The symbols a branch would append starting from the shared accumulator
(computed against an empty accumulator; `collectCoins` is shown to be
accumulator-independent below). -/
def respAdds {α : Type} (entry : α → ListingEntry) (r : Resp α) : List String :=
  match r with
  | .ok data => (collectCoins (data.map entry) [] []).1
  | _ => []

/-- Whether a branch's loop runs to completion (no `KeyError`). -/
def respCompleted {α : Type} (entry : α → ListingEntry) (r : Resp α) : Bool :=
  match r with
  | .ok data => (collectCoins (data.map entry) [] []).2
  | _ => true

theorem collectCoins_acc (entries : List ListingEntry) (seen acc : List String) :
    (collectCoins entries seen acc).1 = acc ++ (collectCoins entries seen []).1
    ∧ (collectCoins entries seen acc).2 = (collectCoins entries seen []).2 := by
  induction entries generalizing seen acc with
  | nil => simp [collectCoins]
  | cons e rest ih =>
    obtain ⟨b, cond⟩ := e
    cases cond with
    | false =>
      simp only [collectCoins]
      exact ih seen acc
    | true =>
      cases b with
      | none => simp [collectCoins]
      | some base =>
        by_cases hb : base ∉ seen ∧ base ∉ EXCLUDE
        · simp only [collectCoins]
          rw [if_pos hb, if_pos hb]
          constructor
          · rw [(ih (base :: seen) (acc ++ [base])).1, (ih (base :: seen) ([] ++ [base])).1]
            simp
          · rw [(ih (base :: seen) (acc ++ [base])).2, (ih (base :: seen) ([] ++ [base])).2]
        · simp only [collectCoins]
          rw [if_neg hb, if_neg hb]
          exact ih seen acc

theorem collectCoins_spec (entries : List ListingEntry) (seen acc : List String) :
    ∃ adds, (collectCoins entries seen acc).1 = acc ++ adds ∧ adds.Nodup
      ∧ ∀ x ∈ adds, x ∉ seen ∧ x ∉ EXCLUDE := by
  induction entries generalizing seen acc with
  | nil => exact ⟨[], by simp [collectCoins], List.nodup_nil, by simp⟩
  | cons e rest ih =>
    obtain ⟨b, cond⟩ := e
    cases cond with
    | false =>
      simpa only [collectCoins] using ih seen acc
    | true =>
      cases b with
      | none => exact ⟨[], by simp [collectCoins], List.nodup_nil, by simp⟩
      | some base =>
        by_cases hb : base ∉ seen ∧ base ∉ EXCLUDE
        · obtain ⟨adds, h1, h2, h3⟩ := ih (base :: seen) (acc ++ [base])
          refine ⟨base :: adds, ?_, ?_, ?_⟩
          · simp only [collectCoins]
            rw [if_pos hb, h1]
            simp
          · refine List.nodup_cons.mpr ⟨fun hmem => ?_, h2⟩
            exact (h3 base hmem).1 (List.mem_cons_self base seen)
          · intro x hx
            rcases List.mem_cons.mp hx with hx | hx
            · subst hx
              exact hb
            · have := h3 x hx
              exact ⟨fun hmem => this.1 (List.mem_cons_of_mem _ hmem), this.2⟩
        · obtain ⟨adds, h1, h2, h3⟩ := ih seen acc
          refine ⟨adds, ?_, h2, h3⟩
          simp only [collectCoins]
          rw [if_neg hb, h1]

theorem branchStep_empty {α : Type} (entry : α → ListingEntry) (r : Resp α)
    (h : respAdds entry r = []) : branchStep entry r [] = ([], false) := by
  cases r with
  | ok data =>
    simp only [respAdds] at h
    simp [branchStep, h]
  | err => rfl
  | httpErr => rfl

theorem branchStep_nodup {α : Type} (entry : α → ListingEntry) (r : Resp α) :
    ((branchStep entry r []).1).Nodup := by
  cases r with
  | ok data =>
    obtain ⟨adds, h1, h2, _⟩ := collectCoins_spec (data.map entry) [] []
    simp only [branchStep, h1]
    simpa using h2
  | err => exact List.nodup_nil
  | httpErr => exact List.nodup_nil

theorem branchStep_exclude {α : Type} (entry : α → ListingEntry) (r : Resp α)
    (acc : List String) (hacc : ∀ x ∈ acc, x ∉ EXCLUDE) :
    ∀ x ∈ (branchStep entry r acc).1, x ∉ EXCLUDE := by
  cases r with
  | ok data =>
    obtain ⟨adds, h1, _, h3⟩ := collectCoins_spec (data.map entry) [] acc
    simp only [branchStep, h1]
    intro x hx
    rcases List.mem_append.mp hx with hx | hx
    · exact hacc x hx
    · exact (h3 x hx).2
  | err => exact hacc
  | httpErr => exact hacc

theorem branchStep_clean {α : Type} (entry : α → ListingEntry) (r : Resp α)
    (hclean : respAdds entry r = [] ∨ respCompleted entry r = true)
    (hflag : (branchStep entry r []).2 = false) : (branchStep entry r []).1 = [] := by
  cases r with
  | ok data =>
    simp only [respAdds, respCompleted] at hclean
    simp only [branchStep] at hflag ⊢
    rcases hclean with h | h
    · simpa using h
    · rw [h] at hflag
      simp only [Bool.true_and] at hflag
      have : (collectCoins (data.map entry) [] []).1.isEmpty = true := by
        cases hie : (collectCoins (data.map entry) [] []).1.isEmpty with
        | true => rfl
        | false => rw [hie] at hflag; simp at hflag
      simpa using this
  | err => rfl
  | httpErr => rfl

/-- Claim C9 (amended): (i) when every listing query fails or yields no
accepted symbol, a refresh leaves the universe exactly at its prior value;
(ii) whenever a refresh replaces the universe, the new universe contains
no symbol of the exclusion set; (iii) the no-duplicates guarantee holds
whenever no query aborts mid-processing after collecting symbols (each
branch either contributes nothing or completes its loop) — it can fail
otherwise, because the `coins` accumulator is shared across branches while
the dedup `seen` set is per-branch. -/
theorem universe_refresh_amended (prev : List String) (bin : Resp BinanceSymbol)
    (kc : Resp KucoinSymbol) (okx : Resp OkxInstrument) :
    (prev ≠ [] → respAdds binanceEntry bin = [] → respAdds kucoinEntry kc = [] →
      respAdds okxEntry okx = [] → fetch_monitor_coins prev bin kc okx = prev)
    ∧ (fetch_monitor_coins prev bin kc okx = prev
        ∨ ∀ x ∈ fetch_monitor_coins prev bin kc okx, x ∉ EXCLUDE)
    ∧ ((respAdds binanceEntry bin = [] ∨ respCompleted binanceEntry bin = true) →
       (respAdds kucoinEntry kc = [] ∨ respCompleted kucoinEntry kc = true) →
       (respAdds okxEntry okx = [] ∨ respCompleted okxEntry okx = true) →
       fetch_monitor_coins prev bin kc okx = prev
         ∨ (fetch_monitor_coins prev bin kc okx).Nodup) := by
  refine ⟨?_, ?_, ?_⟩
  · intro _ h1 h2 h3
    simp [fetch_monitor_coins, branchStep_empty binanceEntry bin h1,
      branchStep_empty kucoinEntry kc h2, branchStep_empty okxEntry okx h3]
  · simp only [fetch_monitor_coins]
    split_ifs with hc1 hc2 hc3
    · exact Or.inr (branchStep_exclude _ _ [] (by simp))
    · exact Or.inr (branchStep_exclude _ _ _ (branchStep_exclude _ _ [] (by simp)))
    · exact Or.inr (branchStep_exclude _ _ _
        (branchStep_exclude _ _ _ (branchStep_exclude _ _ [] (by simp))))
    · exact Or.inl rfl
  · intro hc1 hc2 hc3
    simp only [fetch_monitor_coins]
    by_cases h1 : (branchStep binanceEntry bin ([] : List String)).2 = true
    · rw [if_pos h1]
      exact Or.inr (branchStep_nodup _ _)
    · have hf1 : (branchStep binanceEntry bin ([] : List String)).2 = false := by
        cases hx : (branchStep binanceEntry bin ([] : List String)).2 with
        | true => exact absurd hx h1
        | false => rfl
      have e1 : (branchStep binanceEntry bin ([] : List String)).1 = [] :=
        branchStep_clean _ _ hc1 hf1
      rw [if_neg h1, e1]
      by_cases h2 : (branchStep kucoinEntry kc ([] : List String)).2 = true
      · rw [if_pos h2]
        exact Or.inr (branchStep_nodup _ _)
      · have hf2 : (branchStep kucoinEntry kc ([] : List String)).2 = false := by
          cases hx : (branchStep kucoinEntry kc ([] : List String)).2 with
          | true => exact absurd hx h2
          | false => rfl
        have e2 : (branchStep kucoinEntry kc ([] : List String)).1 = [] :=
          branchStep_clean _ _ hc2 hf2
        rw [if_neg h2, e2]
        by_cases h3 : (branchStep okxEntry okx ([] : List String)).2 = true
        · rw [if_pos h3]
          exact Or.inr (branchStep_nodup _ _)
        · rw [if_neg h3]
          exact Or.inl rfl

def sBTC : String := "BTC"
def sPREV : String := "PREV"

/-- A Binance record accepted by the filter. -/
def binGood : BinanceSymbol := ⟨some sBTC, some ("USDT" : String), some ("TRADING" : String), true⟩

/-- A Binance record that passes the `.get` checks but lacks `baseAsset`,
so `s['baseAsset']` raises `KeyError` mid-loop. -/
def binBad : BinanceSymbol := ⟨none, some ("USDT" : String), some ("TRADING" : String), true⟩

def kcBTC : KucoinSymbol := ⟨some sBTC, some ("USDT" : String), true⟩

/-- Claim C9 counterexample: Binance appends BTC and then aborts on a
record missing `baseAsset`; KuCoin then appends BTC again into the shared
`coins` accumulator (its `seen` set is fresh) and completes, replacing the
universe with `[BTC, BTC]` — a refresh CAN install duplicate base
symbols, refuting the claim's no-duplicates invariant. -/
theorem universe_refresh_counterexample :
    fetch_monitor_coins [sPREV] (.ok [binGood, binBad]) (.ok [kcBTC]) .err = [sBTC, sBTC]
    ∧ ¬ (([sBTC, sBTC] : List String).Nodup)
    ∧ ([sBTC, sBTC] : List String) ≠ [sPREV] :=
  ⟨rfl, by decide, by decide⟩

theorem universe_refresh_amended_witness :
    ([sPREV] : List String) ≠ [] ∧
    respAdds binanceEntry (Resp.err) = [] ∧
    respAdds kucoinEntry (Resp.err) = [] ∧
    respAdds okxEntry (Resp.err) = [] ∧
    fetch_monitor_coins [sPREV] .err .err .err = [sPREV] :=
  ⟨by simp, rfl, rfl, rfl,
   (universe_refresh_amended [sPREV] .err .err .err).1 (by simp) rfl rfl rfl⟩
